import Mathlib

/-!
Shallow embedding of the wdingocoin authority-node daemon
(`src/authorityDaemon.js`, `src/database.js`, `src/dingo.js`).

Amounts are "satoshis" (8-decimal fixed point) held in JavaScript `BigInt`s,
embedded as `Int`.  Thrown `Error`s are embedded as `Except Err`, with one
`Err` constructor per distinct throw site that the claims touch (the JS
message text is recorded in comments).  External services (the UTXO daemon,
the EVM client, the SQLite store) are embedded as explicit function
parameters or explicit state, as noted at each definition.
-/

namespace WDingo

/-- Satoshi amounts: JS `BigInt` values (arbitrary-precision signed). -/
abbrev Sat := Int

/-- `const FLAT_FEE = BigInt(dingo.toSatoshi('10'))` (authorityDaemon.js:27). -/
def FLAT_FEE : Sat := 1000000000

/-- `const DUST_THRESHOLD = BigInt(dingo.toSatoshi('1'))` (authorityDaemon.js:28). -/
def DUST_THRESHOLD : Sat := 100000000

/-- `const PAYOUT_NETWORK_FEE_PER_TX = BigInt(dingo.toSatoshi('20'))` (authorityDaemon.js:29). -/
def PAYOUT_NETWORK_FEE_PER_TX : Sat := 2000000000

/-- Error kinds, one per modelled JS `throw` site. -/
inductive Err where
  /-- 'Amount fails to meet tax' (taxAmount / amountAfterTax). -/
  | amountFailsTax
  /-- 'Insufficient tax to cover network fees of ...' (validatePayouts); carries the fee. -/
  | insufficientTaxValidate (networkFee : Sat)
  /-- 'Dingo address has zero balance' (validatePayouts). -/
  | zeroBalance
  /-- 'Dingo address not registered' (validatePayouts). -/
  | depositNotRegistered
  /-- 'Deposited amount insufficient' (validatePayouts). -/
  | depositInsufficient
  /-- 'Requested tax amount more than remaining approvable tax' (validatePayouts). -/
  | taxExceedsApprovable
  /-- 'Withdrawal and withdrawal tax payouts mismatch in count' (validatePayouts). -/
  | withdrawalCountMismatch
  /-- 'Mismatch in withdrawal and withdrawal tax payout details' (validatePayouts). -/
  | withdrawalDetailMismatch
  /-- 'Withdrawal not registered' (validatePayouts). -/
  | withdrawalNotRegistered
  /-- 'Withdrawal already approved' (validatePayouts). -/
  | withdrawalAlreadyApproved
  /-- 'Withdrawal destination incorrect' (validatePayouts). -/
  | withdrawalDestinationIncorrect
  /-- 'Withdrawal tax destination incorrect' (validatePayouts). -/
  | withdrawalTaxDestinationIncorrect
  /-- 'Withdrawal amount incorrect' (validatePayouts). -/
  | withdrawalAmountIncorrect
  /-- 'Withdrawal tax amount incorrect' (validatePayouts). -/
  | withdrawalTaxAmountIncorrect
  /-- 'Insufficient tax for network fee of ...' (computeVouts); carries the fee. -/
  | insufficientTaxCompute (networkFee : Sat)
  /-- 'Insufficient funds' (computeVouts). -/
  | insufficientFunds
  /-- 'Withdrawal already submitted' (submitWithdrawal handler). -/
  | withdrawalAlreadySubmitted
  /-- 'Withdrawal address is not a valid Dingo address' (submitWithdrawal handler). -/
  | invalidWithdrawalAddress
  /-- 'Amount too little' (submitWithdrawal handler). -/
  | amountTooLittle
  /-- The EVM contract call for a burn record reverts (no such burn entry). -/
  | burnNotFound
  /-- 'mintAddress missing or invalid'. -/
  | invalidMintAddress
  /-- 'Mint address not registered'. -/
  | mintAddressNotRegistered
  /-- 'Incorrect authority count' (registerMintDepositAddress handler). -/
  | incorrectAuthorityCount
  /-- 'Consensus failure on mint address' (registerMintDepositAddress handler). -/
  | mintAddressConsensusFailure
  /-- 'At least one deposit address has been previously registered'. -/
  | depositAddressUsed
  /-- SQLite UNIQUE-constraint violation on insert. -/
  | uniqueConstraintViolation
  /-- 'Message expired' (validateTimedAndSignedMessage). -/
  | messageExpired
  /-- 'Verification failed: incorrect chain' (validateTimedAndSignedMessage). -/
  | incorrectChain
  /-- 'Authority verification failed' (smartContract.validateSignedMessage). -/
  | authorityVerificationFailed
  /-- Raw transaction does not match the computed (unspent, vouts) shape. -/
  | txShapeMismatch
  /-- JS TypeError on a missing/undefined field. -/
  | malformedRequest
  deriving DecidableEq, Repr

/-! ## 4.1 Amount arithmetic (authorityDaemon.js:31-47) -/

/-- `function meetsTax(x) { return BigInt(x) >= FLAT_FEE; }` -/
def meetsTax (x : Sat) : Bool := FLAT_FEE ≤ x

/-- The value computed by `taxAmount` once the `meetsTax` guard has passed:
`FLAT_FEE + (BigInt(x) - FLAT_FEE) / 100n`.  JS `BigInt` division truncates
toward zero; on the guarded domain `x ≥ FLAT_FEE` the dividend is
nonnegative, where `Int` division agrees. -/
def taxVal (x : Sat) : Sat := FLAT_FEE + (x - FLAT_FEE) / 100

/-- `function taxAmount(x)` (authorityDaemon.js:35-40): throws
'Amount fails to meet tax' below `FLAT_FEE`. -/
def taxAmount (x : Sat) : Except Err Sat :=
  if meetsTax x then .ok (taxVal x) else .error .amountFailsTax

/-- The value computed by `amountAfterTax` once the guard has passed:
`BigInt(x) - (FLAT_FEE + (BigInt(x) - FLAT_FEE) / 100n)`. -/
def afterTaxVal (x : Sat) : Sat := x - (FLAT_FEE + (x - FLAT_FEE) / 100)

/-- `function amountAfterTax(x)` (authorityDaemon.js:42-47). -/
def amountAfterTax (x : Sat) : Except Err Sat :=
  if meetsTax x then .ok (afterTaxVal x) else .error .amountFailsTax

/-- C9: the tax round-trip `taxAmount x + amountAfterTax x = x` on the guarded
domain, the exact tax formula, the `x = FLAT_FEE` boundary, and hard failure
below `FLAT_FEE`. -/
theorem tax_roundtrip_boundary (x : Sat) :
    (FLAT_FEE ≤ x →
      taxAmount x = .ok (FLAT_FEE + (x - FLAT_FEE) / 100) ∧
      ∃ t a, taxAmount x = .ok t ∧ amountAfterTax x = .ok a ∧ t + a = x) ∧
    (meetsTax FLAT_FEE = true ∧ taxAmount FLAT_FEE = .ok FLAT_FEE ∧
      amountAfterTax FLAT_FEE = .ok 0) ∧
    (x < FLAT_FEE →
      taxAmount x = .error .amountFailsTax ∧ amountAfterTax x = .error .amountFailsTax) := by
  refine ⟨fun hx => ?_, ⟨?_, ?_, ?_⟩, fun hx => ?_⟩
  · have hm : meetsTax x = true := by simpa [meetsTax] using hx
    refine ⟨by simp [taxAmount, hm, taxVal], taxVal x, afterTaxVal x,
      by simp [taxAmount, hm], by simp [amountAfterTax, hm], ?_⟩
    simp [taxVal, afterTaxVal]
  · simp [meetsTax]
  · simp [taxAmount, meetsTax, taxVal]
  · simp [amountAfterTax, meetsTax, afterTaxVal]
  · have hm : meetsTax x = false := by
      simp only [meetsTax, decide_eq_false_iff_not]
      exact not_le.mpr hx
    exact ⟨by simp [taxAmount, hm], by simp [amountAfterTax, hm]⟩

/-- Witness for C9 at the concrete deposits `x = 50·10^8` (above the fee) and
`x = 400` (below the fee). -/
theorem tax_roundtrip_boundary_witness :
    (taxAmount 5000000000 = .ok (FLAT_FEE + (5000000000 - FLAT_FEE) / 100) ∧
      ∃ t a, taxAmount 5000000000 = .ok t ∧ amountAfterTax 5000000000 = .ok a ∧
        t + a = 5000000000) ∧
    (taxAmount 400 = .error .amountFailsTax ∧
      amountAfterTax 400 = .error .amountFailsTax) :=
  ⟨(tax_roundtrip_boundary 5000000000).1 (by decide),
   (tax_roundtrip_boundary 400).2.2 (by decide)⟩

/-! ## Data model -/

/-- One entry of `listUnspent` output.  `amount` is already converted to
satoshis (the JS wraps it as `BigInt(dingo.toSatoshi(b.amount.toString()))`;
the decimal-string/satoshi conversion is exact). -/
structure Utxo where
  txid : String
  vout : Int
  address : String
  amount : Sat
  deriving DecidableEq, Repr

/-- One element of `depositTaxPayouts`: `{depositAddress, amount}`. -/
structure DepositTaxPayout where
  depositAddress : String
  amount : Sat
  deriving DecidableEq, Repr

/-- One element of `withdrawalPayouts` or `withdrawalTaxPayouts`:
`{burnAddress, burnIndex, burnDestination, amount}`. -/
structure WithdrawalPayout where
  burnAddress : String
  burnIndex : Int
  burnDestination : String
  amount : Sat
  deriving DecidableEq, Repr

/-- The immutable on-chain burn record returned by
`smartContract.getBurnHistory(burnAddress, burnIndex)`. -/
structure BurnEvent where
  burnDestination : String
  burnAmount : Sat
  deriving DecidableEq, Repr

/-- The on-chain burn history: an immutable partial map from
`(burnAddress, burnIndex)` to the burn record.  `none` models a contract
call that reverts (no such entry). -/
abbrev BurnChain := String → Int → Option BurnEvent

/-- A row of the `withdrawals` table (database/schema_authority.sql:408-414):
`approvedAmount` and `approvedTax` both default to "0". -/
structure Withdrawal where
  burnAddress : String
  burnIndex : Int
  approvedAmount : Sat
  approvedTax : Sat
  deriving DecidableEq, Repr

/-- The `withdrawals` table, in insertion order.  The schema's UNIQUE index on
`(burnAddress, burnIndex)` is maintained by the handlers (duplicate inserts
are rejected before reaching the store). -/
abbrev WStore := List Withdrawal

/-- A row of the `mintDepositAddresses` table as selected by
`getMintDepositAddresses` (mintAddress, depositAddress, approvedTax). -/
structure MintBinding where
  mintAddress : String
  depositAddress : String
  approvedTax : Sat
  deriving DecidableEq, Repr

/-! ## List helpers mirroring the JS idioms -/

/-- `Promise.all(xs.map(f))` / a sequential fallible map: first rejection wins. -/
def mapE {α β : Type} (f : α → Except Err β) : List α → Except Err (List β)
  | [] => .ok []
  | x :: xs =>
    match f x with
    | .error e => .error e
    | .ok y =>
      match mapE f xs with
      | .error e => .error e
      | .ok ys => .ok (y :: ys)

/-- A `for`-loop of checks: stop at the first thrown error. -/
def checkEach {α : Type} (f : α → Except Err Unit) : List α → Except Err Unit
  | [] => .ok ()
  | x :: xs =>
    match f x with
    | .error e => .error e
    | .ok _ => checkEach f xs

theorem mapE_ok_forall {α β : Type} {f : α → Except Err β} :
    ∀ {l : List α} {ys : List β}, mapE f l = .ok ys →
      ∀ x ∈ l, ∃ y, f x = .ok y
  | [], _, _ => by simp
  | x :: xs, ys, h => by
    intro a ha
    unfold mapE at h
    rcases hfx : f x with e | y <;> rw [hfx] at h
    · exact absurd h (by simp)
    · rcases hrest : mapE f xs with e | ys' <;> rw [hrest] at h
      · exact absurd h (by simp)
      · rcases List.mem_cons.mp ha with rfl | ha'
        · exact ⟨y, hfx⟩
        · exact mapE_ok_forall hrest a ha'

theorem checkEach_ok_forall {α : Type} {f : α → Except Err Unit} :
    ∀ {l : List α}, checkEach f l = .ok () → ∀ x ∈ l, f x = .ok ()
  | [], _ => by simp
  | x :: xs, h => by
    intro a ha
    unfold checkEach at h
    rcases hfx : f x with e | y <;> rw [hfx] at h
    · exact absurd h (by simp)
    · rcases List.mem_cons.mp ha with rfl | ha'
      · simpa using hfx
      · exact checkEach_ok_forall h a ha'

theorem checkEach_ne_of_forall {α : Type} {f : α → Except Err Unit} {e : Err}
    (hf : ∀ x, f x ≠ .error e) :
    ∀ (l : List α), checkEach f l ≠ .error e
  | [] => by simp [checkEach]
  | x :: xs => by
    unfold checkEach
    rcases hfx : f x with e' | y
    · intro hcon
      exact hf x (by rw [hfx]; simpa using hcon)
    · exact checkEach_ne_of_forall hf xs

/-! ## 4.5 Envelope: timed and signed messages (authorityDaemon.js:115-136)

The secp256k1 personal-message signature is idealized: an envelope carries
the address `signedBy` that `web3.eth.accounts.recover` would return, and
`smartContract.validateSignedMessage` succeeds exactly when that address
equals the expected wallet address. -/

/-- The local view of the UTXO chain: `getBlockchainInfo().blocks` and
`getBlockHash`. -/
structure ChainView where
  blocks : Int
  blockHash : Int → String

/-- The `data` object of a signed message after `createTimedAndSignedMessage`
added `valDingoHeight` and `valDingoHash` to the payload fields. -/
structure EnvelopeData (α : Type) where
  payload : α
  valDingoHeight : Int
  valDingoHash : String
  deriving DecidableEq, Repr

/-- `{data, signature}` with the signature idealized as the recovered signer
address. -/
structure Envelope (α : Type) where
  data : EnvelopeData α
  signedBy : String
  deriving DecidableEq, Repr

/-- `createTimedAndSignedMessage` (authorityDaemon.js:115-123):
stamps `valDingoHeight = blocks - syncDelayThreshold` and
`valDingoHash = getBlockHash(blocks - syncDelayThreshold)`, then signs. -/
def createTimedAndSignedMessage {α : Type} (cv : ChainView) (syncDelayThreshold : Int)
    (self : String) (payload : α) : Envelope α :=
  { data :=
      { payload := payload
        valDingoHeight := cv.blocks - syncDelayThreshold
        valDingoHash := cv.blockHash (cv.blocks - syncDelayThreshold) }
    signedBy := self }

/-- `validateTimedAndSignedMessage` (authorityDaemon.js:124-136) with
`discard = true`: expiry check, chain-hash check, then signature check;
returns `x.data` on success. -/
def validateTimedAndSignedMessage {α : Type} (cv : ChainView) (syncDelayThreshold : Int)
    (env : Envelope α) (walletAddress : String) : Except Err (EnvelopeData α) :=
  if env.data.valDingoHeight < cv.blocks - 2 * syncDelayThreshold then
    .error .messageExpired
  else if env.data.valDingoHash ≠ cv.blockHash env.data.valDingoHeight then
    .error .incorrectChain
  else if env.signedBy ≠ walletAddress then
    .error .authorityVerificationFailed
  else
    .ok env.data

/-- C6: envelope construction stamps `(tip - syncDelayThreshold,
blockHash(tip - syncDelayThreshold))`; verification succeeds exactly on
unexpired, chain-matching, correctly signed envelopes, rejecting as expired
exactly when `valDingoHeight < tip - 2·syncDelayThreshold` and as
wrong-chain exactly when unexpired but the hash differs. -/
theorem envelope_timing_spec {α : Type} (cv : ChainView) (d : Int) (self w : String)
    (payload : α) (env : Envelope α) :
    ((createTimedAndSignedMessage cv d self payload).data.valDingoHeight = cv.blocks - d ∧
      (createTimedAndSignedMessage cv d self payload).data.valDingoHash =
        cv.blockHash (cv.blocks - d)) ∧
    (validateTimedAndSignedMessage cv d env w = .ok env.data ↔
      (cv.blocks - 2 * d ≤ env.data.valDingoHeight ∧
        env.data.valDingoHash = cv.blockHash env.data.valDingoHeight ∧
        env.signedBy = w)) ∧
    (validateTimedAndSignedMessage cv d env w = .error .messageExpired ↔
      env.data.valDingoHeight < cv.blocks - 2 * d) ∧
    (validateTimedAndSignedMessage cv d env w = .error .incorrectChain ↔
      (cv.blocks - 2 * d ≤ env.data.valDingoHeight ∧
        env.data.valDingoHash ≠ cv.blockHash env.data.valDingoHeight)) := by
  refine ⟨⟨rfl, rfl⟩, ?_, ?_, ?_⟩ <;>
    unfold validateTimedAndSignedMessage <;>
    split <;> rename_i h1
  · simp
    intro hle hh
    exact absurd h1 (by omega)
  · split <;> rename_i h2
    · simp [h2]
    · split <;> rename_i h3
      · simp [h3, not_lt.mp h1]
      · simp [not_lt.mp h1, not_ne_iff.mp h2, not_ne_iff.mp h3]
  · simp [h1]
  · split <;> rename_i h2
    · simp
      omega
    · split <;>
        · simp
          omega
  · have hr : ¬ (cv.blocks - 2 * d ≤ env.data.valDingoHeight ∧
        env.data.valDingoHash ≠ cv.blockHash env.data.valDingoHeight) := fun hc =>
      absurd hc.1 (by omega)
    simp only [hr, iff_false]
    intro hcon
    exact absurd hcon (by simp)
  · split <;> rename_i h2
    · simp [not_lt.mp h1, h2]
    · split <;> simp [not_ne_iff.mp h2]

/-! ## Vout maps

JS `vouts` is a plain object mapping an address to a `BigInt`; keys are
unique and insertion-ordered.  We embed it as an association list with
unique keys: `if (a in vouts) vouts[a] += v; else vouts[a] = v` becomes
`addVout`. -/

abbrev VoutMap := List (String × Sat)

/-- `if (a in vouts) { vouts[a] += v } else { vouts[a] = v }`. -/
def addVout : VoutMap → String → Sat → VoutMap
  | [], a, v => [(a, v)]
  | (b, w) :: t, a, v => if b = a then (b, w + v) :: t else (b, w) :: addVout t a v

/-- `vouts[a]`, `none` when the key is absent. -/
def getVout (vs : VoutMap) (a : String) : Option Sat :=
  (vs.find? (fun p => p.1 == a)).map (·.2)

/-- `Object.values(vouts).reduce((a, b) => a + b, 0n)`. -/
def voutTotal (vs : VoutMap) : Sat := (vs.map Prod.snd).sum

/-! ## Payout settings and stage-by-stage `computeVouts`
(authorityDaemon.js:608-662) -/

/-- The slice of `dingoSettings` the payout engine reads. -/
structure DingoSettings where
  taxPayoutAddresses : List String
  changeAddress : String

/-- `Σ depositTaxPayouts.amount + Σ withdrawalTaxPayouts.amount`
(authorityDaemon.js:511 and 622). -/
def payoutTotalTax (dtp : List DepositTaxPayout) (wtp : List WithdrawalPayout) : Sat :=
  (dtp.map (·.amount)).sum + (wtp.map (·.amount)).sum

/-- `BigInt(depositTaxPayouts.length + withdrawalPayouts.length) *
PAYOUT_NETWORK_FEE_PER_TX` (authorityDaemon.js:512 and 623): withdrawal
*tax* payouts are not counted. -/
def payoutNetworkFee (dtp : List DepositTaxPayout) (wp : List WithdrawalPayout) : Sat :=
  (dtp.length + wp.length : Int) * PAYOUT_NETWORK_FEE_PER_TX

/-- Stage 1 of `computeVouts` (authorityDaemon.js:612-619): accumulate the
withdrawal payouts by burn destination. -/
def withdrawalVouts (wp : List WithdrawalPayout) : VoutMap :=
  wp.foldl (fun vs p => addVout vs p.burnDestination p.amount) []

/-- `(totalTax - networkFee) / BigInt(dingoSettings.taxPayoutAddresses.length)`
(authorityDaemon.js:627); integer division, nonnegative under the fee check. -/
def taxPayoutPerPayee (cfg : DingoSettings) (dtp : List DepositTaxPayout)
    (wp wtp : List WithdrawalPayout) : Sat :=
  (payoutTotalTax dtp wtp - payoutNetworkFee dtp wp) / (cfg.taxPayoutAddresses.length : Int)

/-- Stage 2 of `computeVouts` (authorityDaemon.js:627-634): add the equal tax
share to each configured tax payout address. -/
def voutsWithTax (cfg : DingoSettings) (dtp : List DepositTaxPayout)
    (wp wtp : List WithdrawalPayout) : VoutMap :=
  cfg.taxPayoutAddresses.foldl
    (fun vs a => addVout vs a (taxPayoutPerPayee cfg dtp wp wtp)) (withdrawalVouts wp)

/-- `unspent.reduce((a, b) => a + BigInt(dingo.toSatoshi(b.amount.toString())), 0n)`
(authorityDaemon.js:640). -/
def unspentTotal (unspent : List Utxo) : Sat := (unspent.map (·.amount)).sum

/-- `change = totalUnspent - totalPayout - networkFee` (authorityDaemon.js:641),
computed before any dust elision. -/
def changeAmount (cfg : DingoSettings) (dtp : List DepositTaxPayout)
    (wp wtp : List WithdrawalPayout) (unspent : List Utxo) : Sat :=
  unspentTotal unspent - voutTotal (voutsWithTax cfg dtp wp wtp) - payoutNetworkFee dtp wp

/-- Stage 3 of `computeVouts` (authorityDaemon.js:645-651): add the change
vout only when `change > 0`. -/
def voutsBeforeDust (cfg : DingoSettings) (dtp : List DepositTaxPayout)
    (wp wtp : List WithdrawalPayout) (unspent : List Utxo) : VoutMap :=
  if 0 < changeAmount cfg dtp wp wtp unspent then
    addVout (voutsWithTax cfg dtp wp wtp) cfg.changeAddress
      (changeAmount cfg dtp wp wtp unspent)
  else voutsWithTax cfg dtp wp wtp

/-- `vouts[address] >= DUST_THRESHOLD`: the retention test building the final
vout map (authorityDaemon.js:656). -/
def aboveDust (p : String × Sat) : Bool := DUST_THRESHOLD ≤ p.2

/-- `computeVouts(depositTaxPayouts, withdrawalPayouts, withdrawalTaxPayouts,
unspent)` (authorityDaemon.js:609-662).  The final conversion
`dingo.fromSatoshi` to decimal strings is left out: values stay in satoshis. -/
def computeVouts (cfg : DingoSettings) (dtp : List DepositTaxPayout)
    (wp wtp : List WithdrawalPayout) (unspent : List Utxo) : Except Err VoutMap :=
  if payoutTotalTax dtp wtp < payoutNetworkFee dtp wp then
    .error (.insufficientTaxCompute (payoutNetworkFee dtp wp))
  else if changeAmount cfg dtp wp wtp unspent < 0 then
    .error .insufficientFunds
  else
    .ok ((voutsBeforeDust cfg dtp wp wtp unspent).filter aboveDust)

/-! ## The withdrawals store (database.js) -/

/-- `database.getWithdrawal(burnAddress, burnIndex)`: the unique row with the
given key, `null` when absent. -/
def getWithdrawal (s : WStore) (a : String) (i : Int) : Option Withdrawal :=
  s.find? (fun w => w.burnAddress == a && w.burnIndex == i)

/-- `database.registerWithdrawal(burnAddress, burnIndex)`: INSERT with the
schema defaults `approvedAmount = "0", approvedTax = "0"`. -/
def registerWithdrawal (s : WStore) (a : String) (i : Int) : WStore :=
  s ++ [⟨a, i, 0, 0⟩]

/-- One `UPDATE withdrawals SET approvedAmount=?, approvedTax=? WHERE
burnAddress=? AND burnIndex=?` from `database.updateWithdrawals`. -/
def updateWithdrawalRow (s : WStore) (w : Withdrawal) : WStore :=
  s.map (fun x =>
    if x.burnAddress = w.burnAddress ∧ x.burnIndex = w.burnIndex then
      { x with approvedAmount := w.approvedAmount, approvedTax := w.approvedTax }
    else x)

/-- Number of rows of the `withdrawals` table keyed `(a, i)`. -/
def countWithdrawal (s : WStore) (a : String) (i : Int) : Nat :=
  (s.filter (fun w => w.burnAddress == a && w.burnIndex == i)).length

/-! ## `/submitWithdrawal` (authorityDaemon.js:318-343)

Runs under the store write lock.  `chain` is `smartContract.getBurnHistory`,
`verifyAddr` is `dingo.verifyAddress`.  The initial
`smartContract.isAddress(burnAddress)` well-formedness test on the request is
outside the store model and omitted. -/

def submitWithdrawal (chain : BurnChain) (verifyAddr : String → Bool)
    (s : WStore) (burnAddress : String) (burnIndex : Int) : Except Err WStore :=
  if (getWithdrawal s burnAddress burnIndex).isSome then
    .error .withdrawalAlreadySubmitted
  else
    match chain burnAddress burnIndex with
    | none => .error .burnNotFound
    | some b =>
      if !(verifyAddr b.burnDestination) then
        .error .invalidWithdrawalAddress
      else if b.burnAmount < FLAT_FEE then
        .error .amountTooLittle
      else
        .ok (registerWithdrawal s burnAddress burnIndex)

/-! ## `validatePayouts` (authorityDaemon.js:509-573)

`deposited` is `dingo.listReceivedByAddress(depositConfirmations)` with
amounts in satoshis; `bindings` looks up a registered mint deposit address
(the JS restricts `getMintDepositAddresses` to the keys of `deposited`, and
tests membership in `deposited` first, so the restriction is equivalent). -/

/-- The body of the `for (const p of depositTaxPayouts)` loop
(authorityDaemon.js:522-538). -/
def validateDepositTaxPayout (deposited : String → Option Sat)
    (bindings : String → Option MintBinding) (p : DepositTaxPayout) : Except Err Unit :=
  match deposited p.depositAddress with
  | none => .error .zeroBalance
  | some depositedAmount =>
    match bindings p.depositAddress with
    | none => .error .depositNotRegistered
    | some binding =>
      if !(meetsTax depositedAmount) then .error .depositInsufficient
      else
        match taxAmount depositedAmount with
        | .error e => .error e
        | .ok approvableTax =>
          if p.amount + binding.approvedTax > approvableTax then
            .error .taxExceedsApprovable
          else .ok ()

/-- The body of the `for (const i in withdrawalPayouts)` loop
(authorityDaemon.js:545-571), on the pair
`(withdrawalPayouts[i], withdrawalTaxPayouts[i])`. -/
def validateWithdrawalPair (chain : BurnChain) (s : WStore)
    (pr : WithdrawalPayout × WithdrawalPayout) : Except Err Unit :=
  if pr.1.burnAddress ≠ pr.2.burnAddress ∨ pr.1.burnIndex ≠ pr.2.burnIndex then
    .error .withdrawalDetailMismatch
  else
    match getWithdrawal s pr.1.burnAddress pr.1.burnIndex with
    | none => .error .withdrawalNotRegistered
    | some w =>
      if w.approvedAmount ≠ 0 ∨ w.approvedTax ≠ 0 then
        .error .withdrawalAlreadyApproved
      else
        match chain pr.1.burnAddress pr.1.burnIndex with
        | none => .error .burnNotFound
        | some b =>
          if pr.1.burnDestination ≠ b.burnDestination then
            .error .withdrawalDestinationIncorrect
          else if pr.2.burnDestination ≠ b.burnDestination then
            .error .withdrawalTaxDestinationIncorrect
          else
            match amountAfterTax b.burnAmount with
            | .error e => .error e
            | .ok aat =>
              if pr.1.amount ≠ aat then .error .withdrawalAmountIncorrect
              else
                match taxAmount b.burnAmount with
                | .error e => .error e
                | .ok t =>
                  if pr.2.amount ≠ t then .error .withdrawalTaxAmountIncorrect
                  else .ok ()

/-- `validatePayouts(depositTaxPayouts, withdrawalPayouts, withdrawalTaxPayouts)`
(authorityDaemon.js:509-573). -/
def validatePayouts (deposited : String → Option Sat)
    (bindings : String → Option MintBinding) (chain : BurnChain) (s : WStore)
    (dtp : List DepositTaxPayout) (wp wtp : List WithdrawalPayout) : Except Err Unit :=
  if payoutTotalTax dtp wtp < payoutNetworkFee dtp wp then
    .error (.insufficientTaxValidate (payoutNetworkFee dtp wp))
  else
    match checkEach (validateDepositTaxPayout deposited bindings) dtp with
    | .error e => .error e
    | .ok _ =>
      if wp.length ≠ wtp.length then .error .withdrawalCountMismatch
      else checkEach (validateWithdrawalPair chain s) (wp.zip wtp)

/-! ## `applyPayouts`, withdrawal half (authorityDaemon.js:674-685)

All `database.getWithdrawal` reads happen before `database.updateWithdrawals`
runs, so every read sees the pre-state.  The deposit-tax half
(authorityDaemon.js:665-672) touches only the `mintDepositAddresses` table
and is not part of the withdrawal store. -/

def applyPayoutsW (s : WStore) (wp wtp : List WithdrawalPayout) : Except Err WStore :=
  match mapE (fun pr : WithdrawalPayout × WithdrawalPayout =>
      match getWithdrawal s pr.1.burnAddress pr.1.burnIndex with
      | none => .error Err.malformedRequest
      | some w => .ok { w with
          approvedAmount := w.approvedAmount + pr.1.amount,
          approvedTax := w.approvedTax + pr.2.amount }) (wp.zip wtp) with
  | .error e => .error e
  | .ok rows => .ok (rows.foldl updateWithdrawalRow s)

/-! ## Reachable withdrawal-store states (C1)

The store is mutated only under the write lock by `submitWithdrawal`
(insert with defaults) and by the approval path, which runs `applyPayouts`
only after `validatePayouts` has passed in the same critical section
(authorityDaemon.js:690-719).  The burn chain is immutable; the deposit view
and bindings may differ per approval and are existentially chosen. -/

inductive ReachableW (chain : BurnChain) (verifyAddr : String → Bool) : WStore → Prop
  | init : ReachableW chain verifyAddr []
  | submit (s s' : WStore) (a : String) (i : Int) :
      ReachableW chain verifyAddr s →
      submitWithdrawal chain verifyAddr s a i = .ok s' →
      ReachableW chain verifyAddr s'
  | approve (s s' : WStore) (deposited : String → Option Sat)
      (bindings : String → Option MintBinding)
      (dtp : List DepositTaxPayout) (wp wtp : List WithdrawalPayout) :
      ReachableW chain verifyAddr s →
      validatePayouts deposited bindings chain s dtp wp wtp = .ok () →
      applyPayoutsW s wp wtp = .ok s' →
      ReachableW chain verifyAddr s'

/-- The withdrawal two-state invariant: every row is either SUBMITTED
(`(0, 0)`) or APPROVED with exactly `(amountAfterTax(burnAmount),
taxAmount(burnAmount))` of its own on-chain burn record. -/
def WInv (chain : BurnChain) (s : WStore) : Prop :=
  ∀ w ∈ s, (w.approvedAmount = 0 ∧ w.approvedTax = 0) ∨
    ∃ b, chain w.burnAddress w.burnIndex = some b ∧
      amountAfterTax b.burnAmount = .ok w.approvedAmount ∧
      taxAmount b.burnAmount = .ok w.approvedTax

/-- `validatePayouts` approves a batch only if every referenced withdrawal
row exists, is still fully unapproved, and carries exactly the on-chain
amounts. -/
def ApprovedGuard (chain : BurnChain) (s : WStore) : Prop :=
  ∀ (deposited : String → Option Sat) (bindings : String → Option MintBinding)
    (dtp : List DepositTaxPayout) (wp wtp : List WithdrawalPayout),
    validatePayouts deposited bindings chain s dtp wp wtp = .ok () →
    ∀ pr ∈ wp.zip wtp, ∃ w b,
      getWithdrawal s pr.1.burnAddress pr.1.burnIndex = some w ∧
      w.approvedAmount = 0 ∧ w.approvedTax = 0 ∧
      chain pr.1.burnAddress pr.1.burnIndex = some b ∧
      amountAfterTax b.burnAmount = .ok pr.1.amount ∧
      taxAmount b.burnAmount = .ok pr.2.amount

/-! ## Vout-map lemmas -/

theorem getVout_nil (a : String) : getVout [] a = none := rfl

theorem getVout_cons (b : String) (w : Sat) (t : VoutMap) (a : String) :
    getVout ((b, w) :: t) a = if b = a then some w else getVout t a := by
  by_cases hb : b = a
  · simp [getVout, List.find?, hb]
  · have hbeq : (b == a) = false := beq_eq_false_iff_ne.mpr hb
    simp [getVout, List.find?, hbeq, hb]

theorem addVout_cons_ne {b a : String} (w v : Sat) (t : VoutMap) (h : b ≠ a) :
    addVout ((b, w) :: t) a v = (b, w) :: addVout t a v := by
  simp [addVout, h]

theorem getVout_addVout_self (vs : VoutMap) (a : String) (v : Sat) :
    getVout (addVout vs a v) a = some ((getVout vs a).getD 0 + v) := by
  induction vs with
  | nil => simp [addVout, getVout_cons, getVout_nil]
  | cons hd t ih =>
    obtain ⟨b, w⟩ := hd
    by_cases hb : b = a
    · subst hb
      simp [addVout, getVout_cons]
    · rw [addVout_cons_ne w v t hb, getVout_cons, getVout_cons, if_neg hb, if_neg hb, ih]

theorem getVout_addVout_ne (vs : VoutMap) {b a : String} (v : Sat) (h : b ≠ a) :
    getVout (addVout vs b v) a = getVout vs a := by
  induction vs with
  | nil => simp [addVout, getVout_cons, getVout_nil, h]
  | cons hd t ih =>
    obtain ⟨c, w⟩ := hd
    by_cases hc : c = b
    · subst hc
      simp [addVout, getVout_cons, h]
    · rw [addVout_cons_ne w v t hc, getVout_cons, getVout_cons, ih]

theorem voutTotal_nil : voutTotal [] = 0 := rfl

theorem voutTotal_cons (b : String) (w : Sat) (t : VoutMap) :
    voutTotal ((b, w) :: t) = w + voutTotal t := by
  simp [voutTotal]

theorem voutTotal_addVout (vs : VoutMap) (a : String) (v : Sat) :
    voutTotal (addVout vs a v) = voutTotal vs + v := by
  induction vs with
  | nil => simp [addVout, voutTotal]
  | cons hd t ih =>
    obtain ⟨b, w⟩ := hd
    by_cases hb : b = a
    · subst hb
      simp only [addVout, if_pos rfl, voutTotal_cons, if_true, eq_self_iff_true]
      ring
    · rw [addVout_cons_ne w v t hb, voutTotal_cons, voutTotal_cons, ih]
      ring

theorem voutTotal_filter_split (P : String × Sat → Bool) (vs : VoutMap) :
    voutTotal (vs.filter P) + voutTotal (vs.filter (fun x => !(P x))) = voutTotal vs := by
  induction vs with
  | nil => simp [voutTotal]
  | cons hd t ih =>
    obtain ⟨b, w⟩ := hd
    cases hP : P (b, w)
    · rw [List.filter_cons, List.filter_cons]
      simp only [hP, Bool.not_false, if_true, if_false, Bool.false_eq_true, voutTotal_cons]
      linarith [ih]
    · rw [List.filter_cons, List.filter_cons]
      simp only [hP, Bool.not_true, if_true, if_false, Bool.false_eq_true, voutTotal_cons]
      linarith [ih]

theorem getVout_none_of_not_mem_keys {vs : VoutMap} {a : String}
    (h : a ∉ vs.map Prod.fst) : getVout vs a = none := by
  induction vs with
  | nil => rfl
  | cons hd t ih =>
    obtain ⟨b, w⟩ := hd
    simp only [List.map_cons, List.mem_cons, not_or] at h
    rw [getVout_cons, if_neg (fun hba => h.1 hba.symm)]
    exact ih h.2

theorem getVout_isSome_of_mem_keys {vs : VoutMap} {a : String}
    (h : a ∈ vs.map Prod.fst) : (getVout vs a).isSome := by
  rcases List.mem_map.mp h with ⟨p, hp, rfl⟩
  have hfind : (vs.find? (fun q => q.1 == p.1)).isSome :=
    List.find?_isSome.mpr ⟨p, hp, by simp⟩
  unfold getVout
  rcases hopt : vs.find? (fun q => q.1 == p.1) with _ | q
  · rw [hopt] at hfind
    cases hfind
  · rw [hopt]
    rfl

theorem keys_filter_subset {vs : VoutMap} {P : String × Sat → Bool} {c : String}
    (h : c ∈ (vs.filter P).map Prod.fst) : c ∈ vs.map Prod.fst := by
  rcases List.mem_map.mp h with ⟨p, hp, rfl⟩
  exact List.mem_map.mpr ⟨p, List.mem_of_mem_filter hp, rfl⟩

theorem getVout_filter_none {vs : VoutMap} {a : String}
    (h : getVout vs a = none) (P : String × Sat → Bool) :
    getVout (vs.filter P) a = none := by
  apply getVout_none_of_not_mem_keys
  intro hmem
  have hs := getVout_isSome_of_mem_keys (keys_filter_subset hmem)
  rw [h] at hs
  cases hs

theorem mem_keys_addVout {vs : VoutMap} {a c : String} {v : Sat}
    (h : c ∈ (addVout vs a v).map Prod.fst) : c ∈ vs.map Prod.fst ∨ c = a := by
  induction vs with
  | nil => right; simpa [addVout] using h
  | cons hd t ih =>
    obtain ⟨b, w⟩ := hd
    by_cases hb : b = a
    · subst hb
      simp only [addVout, if_pos rfl, if_true, eq_self_iff_true] at h
      left
      simpa using h
    · rw [addVout_cons_ne w v t hb] at h
      simp only [List.map_cons, List.mem_cons] at h ⊢
      rcases h with rfl | h
      · exact Or.inl (Or.inl rfl)
      · rcases ih h with h' | h'
        · exact Or.inl (Or.inr h')
        · exact Or.inr h'

theorem keys_nodup_addVout {vs : VoutMap} (a : String) (v : Sat)
    (h : (vs.map Prod.fst).Nodup) : ((addVout vs a v).map Prod.fst).Nodup := by
  induction vs with
  | nil => simp [addVout]
  | cons hd t ih =>
    obtain ⟨b, w⟩ := hd
    simp only [List.map_cons, List.nodup_cons] at h
    by_cases hb : b = a
    · subst hb
      simp only [addVout, if_pos rfl, if_true, eq_self_iff_true, List.map_cons,
        List.nodup_cons]
      exact h
    · rw [addVout_cons_ne w v t hb]
      simp only [List.map_cons, List.nodup_cons]
      refine ⟨fun hmem => ?_, ih h.2⟩
      rcases mem_keys_addVout hmem with h' | h'
      · exact h.1 h'
      · exact hb h'

/-- The unique-entry lookup of an association list with unique keys survives a
filter exactly when the entry passes the filter. -/
theorem getVout_filter {vs : VoutMap} (hnd : (vs.map Prod.fst).Nodup) {a : String} {v : Sat}
    (h : getVout vs a = some v) (P : String × Sat → Bool) :
    getVout (vs.filter P) a = if P (a, v) then some v else none := by
  induction vs with
  | nil => simp [getVout] at h
  | cons hd t ih =>
    obtain ⟨b, w⟩ := hd
    simp only [List.map_cons, List.nodup_cons] at hnd
    by_cases hb : b = a
    · subst hb
      rw [getVout_cons, if_pos rfl] at h
      obtain rfl : w = v := by injection h
      rw [List.filter_cons]
      by_cases hP : P (b, w) = true
      · rw [if_pos hP, if_pos hP, getVout_cons, if_pos rfl]
      · rw [if_neg hP, if_neg (by simpa using hP)]
        apply getVout_none_of_not_mem_keys
        exact fun hmem => hnd.1 (keys_filter_subset hmem)
    · rw [getVout_cons, if_neg hb] at h
      rw [List.filter_cons]
      by_cases hP : P (b, w) = true
      · rw [if_pos hP, getVout_cons, if_neg hb]
        exact ih hnd.2 h
      · rw [if_neg hP]
        exact ih hnd.2 h

/-! Fold lemmas for the two accumulation loops of `computeVouts`. -/

theorem getVout_withdrawalFold_of_ne (wp : List WithdrawalPayout) {a : String}
    (h : ∀ p ∈ wp, p.burnDestination ≠ a) :
    ∀ init : VoutMap,
      getVout (wp.foldl (fun vs p => addVout vs p.burnDestination p.amount) init) a =
        getVout init a := by
  induction wp with
  | nil => intro init; rfl
  | cons x t ih =>
    intro init
    rw [List.foldl_cons, ih (fun p hp => h p (List.mem_cons_of_mem x hp)),
      getVout_addVout_ne _ _ (h x (List.mem_cons_self x t))]

theorem keys_nodup_withdrawalFold (wp : List WithdrawalPayout) :
    ∀ init : VoutMap, (init.map Prod.fst).Nodup →
      ((wp.foldl (fun vs p => addVout vs p.burnDestination p.amount) init).map
        Prod.fst).Nodup := by
  induction wp with
  | nil => exact fun init h => h
  | cons x t ih =>
    intro init h
    rw [List.foldl_cons]
    exact ih _ (keys_nodup_addVout _ _ h)

theorem getVout_taxFold_of_not_mem (l : List String) (v : Sat) {a : String} (h : a ∉ l) :
    ∀ init : VoutMap,
      getVout (l.foldl (fun vs x => addVout vs x v) init) a = getVout init a := by
  induction l with
  | nil => intro init; rfl
  | cons b t ih =>
    intro init
    have hb : b ≠ a := fun hba => h (hba ▸ List.mem_cons_self b t)
    rw [List.foldl_cons, ih (fun hat => h (List.mem_cons_of_mem b hat)),
      getVout_addVout_ne _ _ hb]

theorem getVout_taxFold_of_mem (l : List String) (v : Sat) {a : String}
    (hnd : l.Nodup) (ha : a ∈ l) :
    ∀ init : VoutMap, getVout init a = none →
      getVout (l.foldl (fun vs x => addVout vs x v) init) a = some v := by
  induction l with
  | nil => cases ha
  | cons b t ih =>
    intro init h0
    rw [List.foldl_cons]
    rcases List.mem_cons.mp ha with rfl | hat
    · have hnt : a ∉ t := (List.nodup_cons.mp hnd).1
      rw [getVout_taxFold_of_not_mem t v hnt, getVout_addVout_self, h0]
      simp
    · have hb : b ≠ a := fun hba => (List.nodup_cons.mp hnd).1 (hba ▸ hat)
      exact ih (List.nodup_cons.mp hnd).2 hat _
        (by rw [getVout_addVout_ne _ _ hb]; exact h0)

theorem keys_nodup_taxFold (l : List String) (v : Sat) :
    ∀ init : VoutMap, (init.map Prod.fst).Nodup →
      ((l.foldl (fun vs x => addVout vs x v) init).map Prod.fst).Nodup := by
  induction l with
  | nil => exact fun init h => h
  | cons b t ih =>
    intro init h
    rw [List.foldl_cons]
    exact ih _ (keys_nodup_addVout _ _ h)

theorem keys_nodup_voutsWithTax (cfg : DingoSettings) (dtp : List DepositTaxPayout)
    (wp wtp : List WithdrawalPayout) :
    ((voutsWithTax cfg dtp wp wtp).map Prod.fst).Nodup :=
  keys_nodup_taxFold _ _ _
    (keys_nodup_withdrawalFold wp [] (by simp))

theorem keys_nodup_voutsBeforeDust (cfg : DingoSettings) (dtp : List DepositTaxPayout)
    (wp wtp : List WithdrawalPayout) (unspent : List Utxo) :
    ((voutsBeforeDust cfg dtp wp wtp unspent).map Prod.fst).Nodup := by
  unfold voutsBeforeDust
  split
  · exact keys_nodup_addVout _ _ (keys_nodup_voutsWithTax cfg dtp wp wtp)
  · exact keys_nodup_voutsWithTax cfg dtp wp wtp

theorem getVout_voutsWithTax_of_not_mem (cfg : DingoSettings) (dtp : List DepositTaxPayout)
    (wp wtp : List WithdrawalPayout) {a : String}
    (htax : a ∉ cfg.taxPayoutAddresses) (hwp : ∀ p ∈ wp, p.burnDestination ≠ a) :
    getVout (voutsWithTax cfg dtp wp wtp) a = none := by
  unfold voutsWithTax withdrawalVouts
  rw [getVout_taxFold_of_not_mem _ _ htax, getVout_withdrawalFold_of_ne wp hwp]
  rfl

theorem getVout_voutsWithTax_taxaddr (cfg : DingoSettings) (dtp : List DepositTaxPayout)
    (wp wtp : List WithdrawalPayout) {a : String}
    (hnd : cfg.taxPayoutAddresses.Nodup) (ha : a ∈ cfg.taxPayoutAddresses)
    (hwp : ∀ p ∈ wp, p.burnDestination ≠ a) :
    getVout (voutsWithTax cfg dtp wp wtp) a = some (taxPayoutPerPayee cfg dtp wp wtp) := by
  unfold voutsWithTax withdrawalVouts
  apply getVout_taxFold_of_mem _ _ hnd ha
  rw [getVout_withdrawalFold_of_ne wp hwp]
  rfl

theorem voutTotal_voutsBeforeDust (cfg : DingoSettings) (dtp : List DepositTaxPayout)
    (wp wtp : List WithdrawalPayout) (unspent : List Utxo)
    (h : 0 ≤ changeAmount cfg dtp wp wtp unspent) :
    voutTotal (voutsBeforeDust cfg dtp wp wtp unspent) =
      unspentTotal unspent - payoutNetworkFee dtp wp := by
  unfold voutsBeforeDust
  split <;> rename_i hc
  · rw [voutTotal_addVout]
    unfold changeAmount
    ring
  · have : changeAmount cfg dtp wp wtp unspent = 0 := le_antisymm (not_lt.mp hc) h
    unfold changeAmount at this
    linarith [this]

/-! ## Error-localization lemmas for the fee check (C2) -/

theorem taxAmount_error {x : Sat} {e : Err} (h : taxAmount x = .error e) :
    e = .amountFailsTax := by
  unfold taxAmount at h
  split at h <;> simp_all

theorem amountAfterTax_error {x : Sat} {e : Err} (h : amountAfterTax x = .error e) :
    e = .amountFailsTax := by
  unfold amountAfterTax at h
  split at h <;> simp_all

theorem validateDepositTaxPayout_ne (deposited : String → Option Sat)
    (bindings : String → Option MintBinding) (p : DepositTaxPayout) (f : Sat) :
    validateDepositTaxPayout deposited bindings p ≠ .error (.insufficientTaxValidate f) := by
  unfold validateDepositTaxPayout
  repeat' split
  all_goals
    first
    | (rename_i e heq
       rw [taxAmount_error heq]
       simp)
    | simp

theorem validateWithdrawalPair_ne (chain : BurnChain) (s : WStore)
    (pr : WithdrawalPayout × WithdrawalPayout) (f : Sat) :
    validateWithdrawalPair chain s pr ≠ .error (.insufficientTaxValidate f) := by
  unfold validateWithdrawalPair
  repeat' split
  all_goals
    first
    | (rename_i e heq
       rw [taxAmount_error heq]
       simp)
    | (rename_i e heq
       rw [amountAfterTax_error heq]
       simp)
    | simp

/-- C2: both `validatePayouts` and `computeVouts` compute
`networkFee = (|depositTaxPayouts| + |withdrawalPayouts|) ·
PAYOUT_NETWORK_FEE_PER_TX` (withdrawal tax payouts excluded from the count)
and fail with their insufficient-tax error exactly when
`totalTax = Σ depositTaxPayouts.amount + Σ withdrawalTaxPayouts.amount` is
strictly below that fee. -/
theorem payout_fee_check (deposited : String → Option Sat)
    (bindings : String → Option MintBinding) (chain : BurnChain) (s : WStore)
    (cfg : DingoSettings) (dtp : List DepositTaxPayout) (wp wtp : List WithdrawalPayout)
    (unspent : List Utxo) :
    payoutNetworkFee dtp wp = (dtp.length + wp.length : Int) * PAYOUT_NETWORK_FEE_PER_TX ∧
    payoutTotalTax dtp wtp = (dtp.map (·.amount)).sum + (wtp.map (·.amount)).sum ∧
    (validatePayouts deposited bindings chain s dtp wp wtp =
        .error (.insufficientTaxValidate (payoutNetworkFee dtp wp)) ↔
      payoutTotalTax dtp wtp < payoutNetworkFee dtp wp) ∧
    (computeVouts cfg dtp wp wtp unspent =
        .error (.insufficientTaxCompute (payoutNetworkFee dtp wp)) ↔
      payoutTotalTax dtp wtp < payoutNetworkFee dtp wp) := by
  refine ⟨rfl, rfl, ⟨fun h => ?_, fun hlt => ?_⟩, ⟨fun h => ?_, fun hlt => ?_⟩⟩
  · by_contra hge
    unfold validatePayouts at h
    rw [if_neg hge] at h
    split at h
    · rename_i e heq
      injection h with h'
      rw [h'] at heq
      exact checkEach_ne_of_forall
        (fun x => validateDepositTaxPayout_ne deposited bindings x _) dtp heq
    · split at h
      · exact absurd h (by simp)
      · exact checkEach_ne_of_forall
          (fun x => validateWithdrawalPair_ne chain s x _) _ h
  · unfold validatePayouts
    rw [if_pos hlt]
  · by_contra hge
    unfold computeVouts at h
    rw [if_neg hge] at h
    split at h <;> exact absurd h (by simp)
  · unfold computeVouts
    rw [if_pos hlt]

/-- Facts recoverable from a successful `computeVouts` run. -/
theorem computeVouts_ok_inv {cfg : DingoSettings} {dtp : List DepositTaxPayout}
    {wp wtp : List WithdrawalPayout} {unspent : List Utxo} {final : VoutMap}
    (h : computeVouts cfg dtp wp wtp unspent = .ok final) :
    ¬ payoutTotalTax dtp wtp < payoutNetworkFee dtp wp ∧
    0 ≤ changeAmount cfg dtp wp wtp unspent ∧
    final = (voutsBeforeDust cfg dtp wp wtp unspent).filter aboveDust := by
  unfold computeVouts at h
  split at h
  · exact absurd h (by simp)
  · split at h
    · exact absurd h (by simp)
    · rename_i h1 h2
      injection h with h3
      exact ⟨h1, not_lt.mp h2, h3.symm⟩

/-- C5: under the fee check, `computeVouts` pays each (distinct) tax payout
address exactly `⌊(totalTax − networkFee) / |taxPayoutAddresses|⌋`, pays
`totalUnspent − Σ payouts − networkFee` to the change address, drops every
vout strictly below `DUST_THRESHOLD` from the final map, and fails with
`InsufficientFunds` exactly when the change is negative. -/
theorem computeVouts_shares_change_dust (cfg : DingoSettings)
    (dtp : List DepositTaxPayout) (wp wtp : List WithdrawalPayout) (unspent : List Utxo)
    (hfee : payoutNetworkFee dtp wp ≤ payoutTotalTax dtp wtp)
    (hnd : cfg.taxPayoutAddresses.Nodup) :
    taxPayoutPerPayee cfg dtp wp wtp =
      (payoutTotalTax dtp wtp - payoutNetworkFee dtp wp) /
        (cfg.taxPayoutAddresses.length : Int) ∧
    (∀ a ∈ cfg.taxPayoutAddresses, (∀ p ∈ wp, p.burnDestination ≠ a) →
      cfg.changeAddress ≠ a →
      getVout (voutsBeforeDust cfg dtp wp wtp unspent) a =
        some (taxPayoutPerPayee cfg dtp wp wtp)) ∧
    (cfg.changeAddress ∉ cfg.taxPayoutAddresses →
      (∀ p ∈ wp, p.burnDestination ≠ cfg.changeAddress) →
      0 < changeAmount cfg dtp wp wtp unspent →
      getVout (voutsBeforeDust cfg dtp wp wtp unspent) cfg.changeAddress =
        some (changeAmount cfg dtp wp wtp unspent)) ∧
    changeAmount cfg dtp wp wtp unspent =
      unspentTotal unspent - voutTotal (voutsWithTax cfg dtp wp wtp) -
        payoutNetworkFee dtp wp ∧
    (0 ≤ changeAmount cfg dtp wp wtp unspent →
      computeVouts cfg dtp wp wtp unspent =
        .ok ((voutsBeforeDust cfg dtp wp wtp unspent).filter aboveDust)) ∧
    (∀ a v final, getVout (voutsBeforeDust cfg dtp wp wtp unspent) a = some v →
      v < DUST_THRESHOLD →
      computeVouts cfg dtp wp wtp unspent = .ok final → getVout final a = none) ∧
    (computeVouts cfg dtp wp wtp unspent = .error .insufficientFunds ↔
      changeAmount cfg dtp wp wtp unspent < 0) := by
  refine ⟨rfl, ?_, ?_, rfl, ?_, ?_, ?_⟩
  · intro a ha hwp hch
    unfold voutsBeforeDust
    split
    · rw [getVout_addVout_ne _ _ hch]
      exact getVout_voutsWithTax_taxaddr cfg dtp wp wtp hnd ha hwp
    · exact getVout_voutsWithTax_taxaddr cfg dtp wp wtp hnd ha hwp
  · intro htax hwp hpos
    unfold voutsBeforeDust
    rw [if_pos hpos, getVout_addVout_self,
      getVout_voutsWithTax_of_not_mem cfg dtp wp wtp htax hwp]
    simp
  · intro hchg
    unfold computeVouts
    rw [if_neg (not_lt.mpr hfee), if_neg (not_lt.mpr hchg)]
  · intro a v final hv hdust hok
    obtain ⟨-, -, rfl⟩ := computeVouts_ok_inv hok
    rw [getVout_filter (keys_nodup_voutsBeforeDust cfg dtp wp wtp unspent) hv aboveDust]
    rw [if_neg]
    simp only [aboveDust, decide_eq_true_eq]
    exact not_le.mpr hdust
  · constructor
    · intro h
      by_contra hge
      unfold computeVouts at h
      rw [if_neg (not_lt.mpr hfee), if_neg hge] at h
      exact absurd h (by simp)
    · intro hneg
      unfold computeVouts
      rw [if_neg (not_lt.mpr hfee), if_pos hneg]

/-- C10: the change amount is fixed before dust elision; a dust-dropped vout
is not redistributed (all surviving vouts keep their pre-elision values and
the dropped value is left to the on-chain transaction fee), and a zero
change creates no change vout at all. -/
theorem dust_left_to_fee (cfg : DingoSettings) (dtp : List DepositTaxPayout)
    (wp wtp : List WithdrawalPayout) (unspent : List Utxo) (final : VoutMap)
    (h : computeVouts cfg dtp wp wtp unspent = .ok final) :
    final = (voutsBeforeDust cfg dtp wp wtp unspent).filter aboveDust ∧
    (∀ a v, getVout (voutsBeforeDust cfg dtp wp wtp unspent) a = some v →
      DUST_THRESHOLD ≤ v → getVout final a = some v) ∧
    (∀ a v, getVout (voutsBeforeDust cfg dtp wp wtp unspent) a = some v →
      v < DUST_THRESHOLD → getVout final a = none) ∧
    voutTotal final +
      voutTotal ((voutsBeforeDust cfg dtp wp wtp unspent).filter
        (fun p => !(aboveDust p))) +
      payoutNetworkFee dtp wp = unspentTotal unspent ∧
    (changeAmount cfg dtp wp wtp unspent = 0 →
      voutsBeforeDust cfg dtp wp wtp unspent = voutsWithTax cfg dtp wp wtp) := by
  obtain ⟨hfee, hchg, rfl⟩ := computeVouts_ok_inv h
  have hnd := keys_nodup_voutsBeforeDust cfg dtp wp wtp unspent
  refine ⟨rfl, ?_, ?_, ?_, ?_⟩
  · intro a v hv hge
    rw [getVout_filter hnd hv aboveDust, if_pos]
    simp only [aboveDust, decide_eq_true_eq]
    exact hge
  · intro a v hv hlt
    rw [getVout_filter hnd hv aboveDust, if_neg]
    simp only [aboveDust, decide_eq_true_eq]
    exact not_le.mpr hlt
  · have hsplit := voutTotal_filter_split aboveDust (voutsBeforeDust cfg dtp wp wtp unspent)
    have htot := voutTotal_voutsBeforeDust cfg dtp wp wtp unspent hchg
    linarith [hsplit, htot]
  · intro hzero
    unfold voutsBeforeDust
    rw [if_neg (by rw [hzero]; exact lt_irrefl 0)]

/-! ## Store and state-machine lemmas (C1, C7) -/

theorem mapE_ok_mem {α β : Type} {f : α → Except Err β} :
    ∀ {l : List α} {ys : List β}, mapE f l = .ok ys →
      ∀ y ∈ ys, ∃ x ∈ l, f x = .ok y
  | [], ys, h => by
    unfold mapE at h
    injection h with h'
    subst h'
    simp
  | x :: xs, ys, h => by
    unfold mapE at h
    rcases hfx : f x with e | y0 <;> rw [hfx] at h
    · exact absurd h (by simp)
    · rcases hrest : mapE f xs with e | ys' <;> rw [hrest] at h
      · exact absurd h (by simp)
      · injection h with h'
        subst h'
        intro y hy
        rcases List.mem_cons.mp hy with rfl | hy'
        · exact ⟨x, List.mem_cons_self x xs, hfx⟩
        · rcases mapE_ok_mem hrest y hy' with ⟨x', hx', hfx'⟩
          exact ⟨x', List.mem_cons_of_mem x hx', hfx'⟩

theorem getWithdrawal_some_key {s : WStore} {a : String} {i : Int} {w : Withdrawal}
    (h : getWithdrawal s a i = some w) :
    w ∈ s ∧ w.burnAddress = a ∧ w.burnIndex = i := by
  unfold getWithdrawal at h
  have hmem := List.mem_of_find?_eq_some h
  have hp := List.find?_some h
  simp only [Bool.and_eq_true, beq_iff_eq] at hp
  exact ⟨hmem, hp.1, hp.2⟩

theorem validateWithdrawalPair_ok {chain : BurnChain} {s : WStore}
    {pr : WithdrawalPayout × WithdrawalPayout}
    (h : validateWithdrawalPair chain s pr = .ok ()) :
    ∃ w b, getWithdrawal s pr.1.burnAddress pr.1.burnIndex = some w ∧
      w.approvedAmount = 0 ∧ w.approvedTax = 0 ∧
      chain pr.1.burnAddress pr.1.burnIndex = some b ∧
      amountAfterTax b.burnAmount = .ok pr.1.amount ∧
      taxAmount b.burnAmount = .ok pr.2.amount := by
  unfold validateWithdrawalPair at h
  split at h
  · exact absurd h (by simp)
  · split at h
    · exact absurd h (by simp)
    · rename_i w hw
      split at h
      · exact absurd h (by simp)
      · rename_i happr
        push_neg at happr
        split at h
        · exact absurd h (by simp)
        · rename_i b hb
          split at h
          · exact absurd h (by simp)
          · split at h
            · exact absurd h (by simp)
            · split at h
              · exact absurd h (by simp)
              · rename_i aat haat
                split at h
                · exact absurd h (by simp)
                · rename_i hamt
                  split at h
                  · exact absurd h (by simp)
                  · rename_i t ht
                    split at h
                    · exact absurd h (by simp)
                    · rename_i htaxeq
                      refine ⟨w, b, hw, happr.1, happr.2, hb, ?_, ?_⟩
                      · rw [not_ne_iff.mp hamt]
                        exact haat
                      · rw [not_ne_iff.mp htaxeq]
                        exact ht

theorem validatePayouts_ok {deposited : String → Option Sat}
    {bindings : String → Option MintBinding} {chain : BurnChain} {s : WStore}
    {dtp : List DepositTaxPayout} {wp wtp : List WithdrawalPayout}
    (h : validatePayouts deposited bindings chain s dtp wp wtp = .ok ()) :
    wp.length = wtp.length ∧
    ∀ pr ∈ wp.zip wtp, validateWithdrawalPair chain s pr = .ok () := by
  unfold validatePayouts at h
  split at h
  · exact absurd h (by simp)
  · split at h
    · exact absurd h (by simp)
    · split at h
      · exact absurd h (by simp)
      · rename_i hlen
        exact ⟨not_ne_iff.mp hlen, fun pr hpr => checkEach_ok_forall h pr hpr⟩

theorem mem_updateWithdrawalRow {s : WStore} {r x : Withdrawal}
    (hx : x ∈ updateWithdrawalRow s r) : x ∈ s ∨ x = r := by
  unfold updateWithdrawalRow at hx
  rcases List.mem_map.mp hx with ⟨y, hy, hxy⟩
  by_cases hc : y.burnAddress = r.burnAddress ∧ y.burnIndex = r.burnIndex
  · right
    rw [← hxy, if_pos hc]
    obtain ⟨ya, yi, yaa, yat⟩ := y
    obtain ⟨ra, ri, raa, rat⟩ := r
    simp_all
  · left
    rw [← hxy, if_neg hc]
    exact hy

theorem mem_foldl_updateWithdrawalRow :
    ∀ (rows : List Withdrawal) (s : WStore) (x : Withdrawal),
      x ∈ rows.foldl updateWithdrawalRow s → x ∈ s ∨ x ∈ rows
  | [], _, _, h => Or.inl h
  | r :: rs, s, x, h => by
    rw [List.foldl_cons] at h
    rcases mem_foldl_updateWithdrawalRow rs _ x h with h' | h'
    · rcases mem_updateWithdrawalRow h' with h'' | h''
      · exact Or.inl h''
      · right
        rw [h'']
        exact List.mem_cons_self r rs
    · exact Or.inr (List.mem_cons_of_mem r h')

theorem submitWithdrawal_ok {chain : BurnChain} {va : String → Bool} {s : WStore}
    {a : String} {i : Int} {s' : WStore}
    (h : submitWithdrawal chain va s a i = .ok s') :
    getWithdrawal s a i = none ∧
    ∃ b, chain a i = some b ∧ va b.burnDestination = true ∧ FLAT_FEE ≤ b.burnAmount ∧
      s' = registerWithdrawal s a i := by
  unfold submitWithdrawal at h
  split at h
  · exact absurd h (by simp)
  · rename_i hnone
    have h0 : getWithdrawal s a i = none := by
      rcases hopt : getWithdrawal s a i with _ | w
      · rfl
      · rw [hopt] at hnone
        simp at hnone
    split at h
    · exact absurd h (by simp)
    · rename_i b hb
      split at h
      · exact absurd h (by simp)
      · rename_i hva
        split at h
        · exact absurd h (by simp)
        · rename_i hamt
          injection h with h'
          exact ⟨h0, b, hb, by simpa using hva, not_lt.mp hamt, h'.symm⟩

/-- C1: in every reachable state of the withdrawals store, each row's
`(approvedAmount, approvedTax)` is `(0, 0)` or exactly
`(amountAfterTax(burnAmount), taxAmount(burnAmount))` of its on-chain burn
record, and `validatePayouts` rejects any batch touching an
already-approved withdrawal before any mutation can happen. -/
theorem withdrawal_two_state (chain : BurnChain) (verifyAddr : String → Bool)
    (s : WStore) (hs : ReachableW chain verifyAddr s) :
    WInv chain s ∧ ApprovedGuard chain s := by
  have hguard : ∀ t : WStore, ApprovedGuard chain t := by
    intro t deposited bindings dtp wp wtp hval pr hpr
    obtain ⟨hlen, hall⟩ := validatePayouts_ok hval
    exact validateWithdrawalPair_ok (hall pr hpr)
  refine ⟨?_, hguard s⟩
  induction hs with
  | init =>
    intro w hw
    cases hw
  | submit s s' a i hr hsub ih =>
    obtain ⟨h0, b, hb, hva, hamt, rfl⟩ := submitWithdrawal_ok hsub
    intro w hw
    unfold registerWithdrawal at hw
    rcases List.mem_append.mp hw with hw' | hw'
    · exact ih w hw'
    · left
      have hweq : w = ⟨a, i, 0, 0⟩ := by simpa using hw'
      rw [hweq]
      exact ⟨rfl, rfl⟩
  | approve s s' deposited bindings dtp wp wtp hr hval happ ih =>
    unfold applyPayoutsW at happ
    split at happ
    · exact absurd happ (by simp)
    · rename_i rows hrows
      injection happ with happ'
      subst happ'
      intro x hx
      rcases mem_foldl_updateWithdrawalRow rows s x hx with hxs | hxr
      · exact ih x hxs
      · rcases mapE_ok_mem hrows x hxr with ⟨pr, hpr, hfx⟩
        obtain ⟨w, b, hw, ha0, ht0, hb, haat, htax⟩ :=
          hguard s deposited bindings dtp wp wtp hval pr hpr
        rw [hw] at hfx
        injection hfx with hfx'
        subst hfx'
        right
        obtain ⟨hwmem, hwa, hwi⟩ := getWithdrawal_some_key hw
        refine ⟨b, ?_, ?_, ?_⟩
        · show chain w.burnAddress w.burnIndex = some b
          rw [hwa, hwi]
          exact hb
        · show amountAfterTax b.burnAmount = .ok (w.approvedAmount + pr.1.amount)
          rw [ha0, zero_add]
          exact haat
        · show taxAmount b.burnAmount = .ok (w.approvedTax + pr.2.amount)
          rw [ht0, zero_add]
          exact htax

/-- A concrete burn chain for the witnesses: one burn of `20·10^8` coins at
`("0xBURN", 0)`. -/
def chainEx : BurnChain := fun a i =>
  if a = "0xBURN" ∧ i = 0 then some ⟨"DDest", 2000000000⟩ else none

/-- A UTXO address validator accepting everything, for the witnesses. -/
def verifyAddrEx : String → Bool := fun _ => true

/-- The store after one successful `submitWithdrawal` on `chainEx`. -/
def stEx : WStore := [⟨"0xBURN", 0, 0, 0⟩]

/-- Witness for C1: the invariant holds in the state reached by one
successful `submitWithdrawal`. -/
theorem withdrawal_two_state_witness : WInv chainEx stEx ∧ ApprovedGuard chainEx stEx :=
  withdrawal_two_state chainEx verifyAddrEx stEx
    (ReachableW.submit [] stEx "0xBURN" 0 ReachableW.init (by rfl))

/-- C7: `submitWithdrawal` rejects a duplicate key, an invalid burn
destination, and a burn amount below `FLAT_FEE`; otherwise it inserts
exactly one row with both approved fields zero, and a second call with the
same key fails as a duplicate leaving the single row in place. -/
theorem submit_withdrawal_intake (chain : BurnChain) (va : String → Bool)
    (s : WStore) (a : String) (i : Int) :
    ((getWithdrawal s a i).isSome →
      submitWithdrawal chain va s a i = .error .withdrawalAlreadySubmitted) ∧
    (∀ b, getWithdrawal s a i = none → chain a i = some b →
      va b.burnDestination = false →
      submitWithdrawal chain va s a i = .error .invalidWithdrawalAddress) ∧
    (∀ b, getWithdrawal s a i = none → chain a i = some b →
      va b.burnDestination = true → b.burnAmount < FLAT_FEE →
      submitWithdrawal chain va s a i = .error .amountTooLittle) ∧
    (∀ b, getWithdrawal s a i = none → chain a i = some b →
      va b.burnDestination = true → FLAT_FEE ≤ b.burnAmount →
      submitWithdrawal chain va s a i = .ok (s ++ [⟨a, i, 0, 0⟩])) ∧
    (∀ s', submitWithdrawal chain va s a i = .ok s' →
      countWithdrawal s' a i = countWithdrawal s a i + 1 ∧
      submitWithdrawal chain va s' a i = .error .withdrawalAlreadySubmitted ∧
      (countWithdrawal s a i = 0 → countWithdrawal s' a i = 1)) := by
  refine ⟨fun h => ?_, fun b h0 hb hva => ?_, fun b h0 hb hva hlt => ?_,
    fun b h0 hb hva hge => ?_, fun s' h => ?_⟩
  · unfold submitWithdrawal
    rw [if_pos h]
  · simp [submitWithdrawal, h0, hb, hva]
  · simp [submitWithdrawal, h0, hb, hva, hlt]
  · have hlt' : ¬ b.burnAmount < FLAT_FEE := not_lt.mpr hge
    simp [submitWithdrawal, h0, hb, hva, hlt', registerWithdrawal]
  · obtain ⟨h0, b, hb, hva, hge, rfl⟩ := submitWithdrawal_ok h
    have hcount : countWithdrawal (registerWithdrawal s a i) a i =
        countWithdrawal s a i + 1 := by
      unfold countWithdrawal registerWithdrawal
      rw [List.filter_append]
      simp
    refine ⟨hcount, ?_, fun hz => by rw [hcount, hz]⟩
    have hsome : (getWithdrawal (registerWithdrawal s a i) a i).isSome := by
      unfold getWithdrawal registerWithdrawal
      rw [List.find?_isSome]
      exact ⟨⟨a, i, 0, 0⟩, by simp, by simp⟩
    unfold submitWithdrawal
    rw [if_pos hsome]

/-- Witness for C7: a fresh submission succeeds, the duplicate is rejected,
and exactly one row remains. -/
theorem submit_withdrawal_intake_witness :
    submitWithdrawal chainEx verifyAddrEx [] "0xBURN" 0 = .ok stEx ∧
    submitWithdrawal chainEx verifyAddrEx stEx "0xBURN" 0 =
      .error .withdrawalAlreadySubmitted ∧
    countWithdrawal stEx "0xBURN" 0 = 1 := by
  have h4 := (submit_withdrawal_intake chainEx verifyAddrEx [] "0xBURN" 0).2.2.2.1
    ⟨"DDest", 2000000000⟩ rfl rfl rfl (by decide)
  have h5 := (submit_withdrawal_intake chainEx verifyAddrEx [] "0xBURN" 0).2.2.2.2
    stEx h4
  exact ⟨h4, h5.2.1, h5.2.2 rfl⟩

/-! ## `/createMintTransaction` (C4, authorityDaemon.js:258-297) -/

/-- The reply of `/createMintTransaction`; the `(v, r, s)` contract signature
is outside the model. -/
structure MintTxResult where
  mintAddress : String
  mintNonce : Int
  depositAddress : String
  mintAmount : Sat
  deriving DecidableEq, Repr

/-- The `/createMintTransaction` handler (authorityDaemon.js:258-297).
`isAddr` is `smartContract.isAddress`, `getDeposit` is
`database.getMintDepositAddress`, `received` is the confirmed
`getReceivedAmountByAddress` in satoshis (`0` when the address never
received), and `mintHistory` is `smartContract.getMintHistory`, returning
`(mintNonce, mintedAmount)`.  Line 273 calls
`amountAfterTax(depositedAmount)` with no `meetsTax` guard (unlike
`/queryMintBalance` at line 241), so a deposit below `FLAT_FEE` throws. -/
def createMintTransaction (isAddr : String → Bool) (getDeposit : String → Option String)
    (received : String → Sat) (mintHistory : String → String → Int × Sat)
    (mintAddress : String) : Except Err MintTxResult :=
  if !(isAddr mintAddress) then .error .invalidMintAddress
  else
    match getDeposit mintAddress with
    | none => .error .mintAddressNotRegistered
    | some depositAddress =>
      match amountAfterTax (received depositAddress) with
      | .error e => .error e
      | .ok depositedAmountAfterTax =>
        let nm := mintHistory mintAddress depositAddress
        let m0 := depositedAmountAfterTax - nm.2
        .ok ⟨mintAddress, nm.1, depositAddress, if m0 < 0 then 0 else m0⟩

/-- `smartContract.isAddress` for the witnesses: only `0xMINT` is valid. -/
def isAddrEx : String → Bool := fun a => a == "0xMINT"

/-- `database.getMintDepositAddress` for the witnesses. -/
def getDepositEx : String → Option String :=
  fun a => if a = "0xMINT" then some "DEP" else none

/-- `smartContract.getMintHistory` for the witnesses: nonce 0, nothing
minted yet. -/
def mintHistoryEx : String → String → Int × Sat := fun _ _ => (0, 0)

/-- C4 counterexample: for a registered mint address with zero confirmed
deposits (`D_conf = 0 < FLAT_FEE`), the handler throws
'Amount fails to meet tax' instead of replying with `mintAmount = 0`. -/
theorem create_mint_below_fee_fails :
    createMintTransaction isAddrEx getDepositEx (fun _ => 0) mintHistoryEx "0xMINT" =
      .error .amountFailsTax := by
  rfl

/-- C4 (amended): for a valid, bound mint address whose confirmed deposit
meets the tax threshold, the handler replies with
`mintAmount = max 0 (amountAfterTax(D_conf) − mintedAmount)` and the
contract's current `mintNonce` (the handler never advances it — the reply
nonce is exactly the one read from the contract); when `D_conf < FLAT_FEE`
it fails with the tax error rather than replying `0`. -/
theorem create_mint_transaction_spec (isAddr : String → Bool)
    (getDeposit : String → Option String) (received : String → Sat)
    (mintHistory : String → String → Int × Sat) (m dep : String)
    (hm : isAddr m = true) (hdep : getDeposit m = some dep) :
    (FLAT_FEE ≤ received dep →
      createMintTransaction isAddr getDeposit received mintHistory m =
        .ok ⟨m, (mintHistory m dep).1, dep,
          max 0 (afterTaxVal (received dep) - (mintHistory m dep).2)⟩) ∧
    (received dep < FLAT_FEE →
      createMintTransaction isAddr getDeposit received mintHistory m =
        .error .amountFailsTax) := by
  constructor
  · intro hge
    have hmt : meetsTax (received dep) = true := by simpa [meetsTax] using hge
    simp only [createMintTransaction, hm, hdep, amountAfterTax, hmt, Bool.not_true,
      Bool.false_eq_true, if_false, if_true, Except.ok.injEq, MintTxResult.mk.injEq,
      true_and]
    rcases lt_or_le (afterTaxVal (received dep) - (mintHistory m dep).2) 0 with hc | hc
    · rw [if_pos hc, max_eq_left (le_of_lt hc)]
    · rw [if_neg (not_lt.mpr hc), max_eq_right hc]
  · intro hlt
    have hmt : meetsTax (received dep) = false := by
      simp only [meetsTax, decide_eq_false_iff_not]
      exact not_le.mpr hlt
    simp [createMintTransaction, hm, hdep, amountAfterTax, hmt]

/-- Witness for the amended C4 at a `50·10^8` confirmed deposit. -/
theorem create_mint_transaction_spec_witness :
    createMintTransaction isAddrEx getDepositEx (fun _ => 5000000000) mintHistoryEx
      "0xMINT" =
      .ok ⟨"0xMINT", (mintHistoryEx "0xMINT" "DEP").1, "DEP",
        max 0 (afterTaxVal 5000000000 - (mintHistoryEx "0xMINT" "DEP").2)⟩ :=
  (create_mint_transaction_spec isAddrEx getDepositEx (fun _ => 5000000000)
    mintHistoryEx "0xMINT" "DEP" rfl rfl).1 (by decide)

/-! ## `verifyRawTransaction` (C3)

Modelled from the spec: `verifyRawTransaction(unspent, vouts, hex)` belongs
to the UTXO client `dingo.js`, but the `dingo.js` revision in this tree
exports only `verifyAndSignRawTransaction(unspent, payouts, data, hex)`;
the three-argument `verifyRawTransaction` invoked by
`authorityDaemon.js:709` is missing from the tree, so the definition below
follows spec section 4.2 word for word: decode `hex`; accept exactly when
(i) the set of transaction inputs equals `unspent` identified by
`(txid, vout)`, (ii) there are `|vouts|` outputs, and (iii) each vout pays
the specified address the specified amount; fail with the shape-mismatch
error otherwise. -/

/-- A decoded transaction input (txid, vout index). -/
structure TxIn where
  txid : String
  vout : Int
  deriving DecidableEq, Repr

/-- A decoded transaction output: paying address and value (satoshis). -/
structure TxOut where
  address : String
  value : Sat
  deriving DecidableEq, Repr

/-- The result of the daemon's `decoderawtransaction`. -/
structure DecodedTx where
  vin : List TxIn
  vout : List TxOut
  deriving DecidableEq, Repr

/-- Modelled from the spec: the shape test of `verifyRawTransaction`
(spec section 4.2). -/
def txMatchesVouts (tx : DecodedTx) (unspent : List Utxo) (vouts : VoutMap) : Bool :=
  (unspent.all (fun u => tx.vin.any (fun j => j.txid == u.txid && j.vout == u.vout)) &&
    tx.vin.all (fun j => unspent.any (fun u => j.txid == u.txid && j.vout == u.vout))) &&
  (tx.vout.length == vouts.length) &&
  vouts.all (fun p =>
    match tx.vout.filter (fun o => o.address == p.1) with
    | [o] => o.value == p.2
    | _ => false)

/-- Modelled from the spec: `verifyRawTransaction(unspent, vouts, hex)`
(spec section 4.2); `decode` is the external daemon's
`decoderawtransaction`, failing on undecodable hex. -/
def verifyRawTransaction (decode : String → Option DecodedTx) (unspent : List Utxo)
    (vouts : VoutMap) (hex : String) : Except Err Unit :=
  match decode hex with
  | none => .error .txShapeMismatch
  | some tx =>
    if txMatchesVouts tx unspent vouts then .ok () else .error .txShapeMismatch

theorem vout_entry_check_iff (txout : List TxOut) (p : String × Sat) :
    (match txout.filter (fun o => o.address == p.1) with
      | [o] => o.value == p.2
      | _ => false) = true ↔
    txout.filter (fun o => o.address == p.1) = [⟨p.1, p.2⟩] := by
  rcases hf : txout.filter (fun o => o.address == p.1) with _ | ⟨o, rest⟩
  · rw [hf]
    simp
  · rcases rest with _ | ⟨o2, rest2⟩
    · have homem : o ∈ txout.filter (fun o => o.address == p.1) := by
        rw [hf]
        exact List.mem_cons_self o []
      have ho : o.address = p.1 := by
        have h2 := (List.mem_filter.mp homem).2
        simpa using h2
      rw [hf]
      obtain ⟨oa, ov⟩ := o
      simp_all
    · rw [hf]
      simp

theorem txMatchesVouts_iff (tx : DecodedTx) (unspent : List Utxo) (vouts : VoutMap) :
    txMatchesVouts tx unspent vouts = true ↔
      ((∀ u ∈ unspent, ∃ j ∈ tx.vin, j.txid = u.txid ∧ j.vout = u.vout) ∧
        (∀ j ∈ tx.vin, ∃ u ∈ unspent, j.txid = u.txid ∧ j.vout = u.vout)) ∧
      tx.vout.length = vouts.length ∧
      (∀ p ∈ vouts, tx.vout.filter (fun o => o.address == p.1) = [⟨p.1, p.2⟩]) := by
  unfold txMatchesVouts
  simp only [Bool.and_eq_true, List.all_eq_true, List.any_eq_true, beq_iff_eq,
    Bool.and_eq_true, vout_entry_check_iff, and_assoc]

/-- C3: `verifyRawTransaction` accepts exactly those transactions whose
input set equals `unspent` by `(txid, vout)`, whose output count is
`|vouts|`, and where each (post-dust-elision) vout entry is paid by exactly
one matching output; every failure is the shape-mismatch error. -/
theorem verify_raw_transaction_spec (decode : String → Option DecodedTx)
    (unspent : List Utxo) (vouts : VoutMap) (hex : String) :
    (verifyRawTransaction decode unspent vouts hex = .ok () ↔
      ∃ tx, decode hex = some tx ∧
        (∀ u ∈ unspent, ∃ j ∈ tx.vin, j.txid = u.txid ∧ j.vout = u.vout) ∧
        (∀ j ∈ tx.vin, ∃ u ∈ unspent, j.txid = u.txid ∧ j.vout = u.vout) ∧
        tx.vout.length = vouts.length ∧
        (∀ p ∈ vouts, tx.vout.filter (fun o => o.address == p.1) = [⟨p.1, p.2⟩])) ∧
    (∀ e, verifyRawTransaction decode unspent vouts hex = .error e →
      e = .txShapeMismatch) := by
  constructor
  · constructor
    · intro h
      unfold verifyRawTransaction at h
      split at h
      · exact absurd h (by simp)
      · rename_i tx hdec
        split at h
        · rename_i hc
          obtain ⟨⟨h1, h2⟩, h3, h4⟩ := (txMatchesVouts_iff tx unspent vouts).mp hc
          exact ⟨tx, hdec, h1, h2, h3, h4⟩
        · exact absurd h (by simp)
    · rintro ⟨tx, htx, h1, h2, h3, h4⟩
      unfold verifyRawTransaction
      rw [htx]
      show (if txMatchesVouts tx unspent vouts = true then (Except.ok () : Except Err Unit)
          else Except.error Err.txShapeMismatch) = Except.ok ()
      rw [if_pos ((txMatchesVouts_iff tx unspent vouts).mpr ⟨⟨h1, h2⟩, h3, h4⟩)]
  · intro e he
    unfold verifyRawTransaction at he
    split at he
    · injection he with he'
      exact he'.symm
    · split at he
      · exact absurd he (by simp)
      · injection he with he'
        exact he'.symm

/-! ## `/registerMintDepositAddress` (C8, authorityDaemon.js:182-223) -/

/-- One entry of `publicSettings.authorityNodes` (ordered, positional). -/
structure AuthorityNode where
  hostname : String
  port : Int
  walletAddress : String
  deriving DecidableEq, Repr

/-- The payload of a `generateDepositAddress` response: `{mintAddress,
depositAddress}` — `depositAddress` here is the authority's fresh wallet
pubkey (dingo.js `getNewAddress` returns `validateaddress(...).pubkey`). -/
structure GenAddrData where
  mintAddress : String
  depositAddress : String
  deriving DecidableEq, Repr

/-- The store state the registration handler touches: the
`usedDepositAddresses` table and the `mintDepositAddresses` table
(mintAddress, multisig depositAddress, redeemScript). -/
structure RegState where
  usedDepositAddresses : List String
  mintDepositAddresses : List (String × String × String)
  deriving DecidableEq, Repr

/-- `database.hasUsedDepositAddresses`: COUNT of rows whose address is in
the list, tested `> 0`. -/
def hasUsedDepositAddresses (used : List String) (depositAddresses : List String) : Bool :=
  depositAddresses.any (fun a => used.contains a)

/-- `database.registerUsedDepositAddresses`: one INSERT per address, each
subject to the UNIQUE constraint on `address`. -/
def registerUsedDepositAddresses (used : List String) :
    List String → Except Err (List String)
  | [] => .ok used
  | a :: rest =>
    if used.contains a then .error .uniqueConstraintViolation
    else registerUsedDepositAddresses (used ++ [a]) rest

/-- The `/registerMintDepositAddress` handler (authorityDaemon.js:182-223),
run under the store write lock.  `createMultisig` is the UTXO daemon's
deterministic `createmultisig`, returning `(address, redeemScript)`; the
`importAddress` side effect is external.  An empty authority list would hit
a JS TypeError reading `generateDepositAddressResponses[0]`, modelled as
`malformedRequest`.  An error reply aborts the request (the surrounding
`asyncHandler` returns HTTP 500). -/
def registerMintDepositAddress (cv : ChainView) (syncDelayThreshold : Int)
    (authorityNodes : List AuthorityNode) (authorityThreshold : Int)
    (isAddr : String → Bool) (createMultisig : Int → List String → String × String)
    (st : RegState) (responses : List (Envelope GenAddrData)) :
    Except Err (RegState × String) :=
  if responses.length ≠ authorityNodes.length then .error .incorrectAuthorityCount
  else
    match mapE (fun p : Envelope GenAddrData × AuthorityNode =>
        validateTimedAndSignedMessage cv syncDelayThreshold p.1 p.2.walletAddress)
        (responses.zip authorityNodes) with
    | .error e => .error e
    | .ok datas =>
      match datas with
      | [] => .error .malformedRequest
      | d0 :: _ =>
        if !(datas.all (fun x => x.payload.mintAddress == d0.payload.mintAddress)) then
          .error .mintAddressConsensusFailure
        else if !(isAddr d0.payload.mintAddress) then .error .invalidMintAddress
        else
          if hasUsedDepositAddresses st.usedDepositAddresses
              (datas.map (fun x => x.payload.depositAddress)) then
            .error .depositAddressUsed
          else
            match registerUsedDepositAddresses st.usedDepositAddresses
                (datas.map (fun x => x.payload.depositAddress)) with
            | .error e => .error e
            | .ok used' =>
              let ms := createMultisig authorityThreshold
                (datas.map (fun x => x.payload.depositAddress))
              .ok ({ usedDepositAddresses := used'
                     mintDepositAddresses := st.mintDepositAddresses ++
                       [(d0.payload.mintAddress, ms.1, ms.2)] },
                   ms.1)

theorem validateTimed_ok_data {α : Type} {cv : ChainView} {d : Int} {env : Envelope α}
    {w : String} {dta : EnvelopeData α}
    (h : validateTimedAndSignedMessage cv d env w = .ok dta) : dta = env.data := by
  unfold validateTimedAndSignedMessage at h
  split at h
  · exact absurd h (by simp)
  · split at h
    · exact absurd h (by simp)
    · split at h
      · exact absurd h (by simp)
      · injection h with h'
        exact h'.symm

theorem mapE_validate_ok {cv : ChainView} {d : Int} :
    ∀ {l : List (Envelope GenAddrData × AuthorityNode)} {ys : List (EnvelopeData GenAddrData)},
      mapE (fun p => validateTimedAndSignedMessage cv d p.1 p.2.walletAddress) l = .ok ys →
      ys = l.map (fun p => p.1.data) ∧
      ∀ p ∈ l, validateTimedAndSignedMessage cv d p.1 p.2.walletAddress = .ok p.1.data
  | [], ys, h => by
    unfold mapE at h
    injection h with h'
    subst h'
    exact ⟨rfl, by simp⟩
  | x :: xs, ys, h => by
    unfold mapE at h
    rcases hfx : validateTimedAndSignedMessage cv d x.1 x.2.walletAddress with e | y0 <;>
      rw [hfx] at h
    · exact absurd h (by simp)
    · rcases hrest : mapE (fun p =>
          validateTimedAndSignedMessage cv d p.1 p.2.walletAddress) xs with e | ys' <;>
        rw [hrest] at h
      · exact absurd h (by simp)
      · injection h with h'
        subst h'
        obtain ⟨hys, hall⟩ := mapE_validate_ok hrest
        subst hys
        have hy0 : y0 = x.1.data := validateTimed_ok_data hfx
        subst hy0
        refine ⟨rfl, fun p hp => ?_⟩
        rcases List.mem_cons.mp hp with rfl | hp'
        · exact hfx
        · exact hall p hp'

theorem registerUsedDepositAddresses_ok :
    ∀ {used : List String} {l : List String} {used' : List String},
      registerUsedDepositAddresses used l = .ok used' → used' = used ++ l
  | used, [], used', h => by
    unfold registerUsedDepositAddresses at h
    injection h with h'
    rw [← h']
    simp
  | used, a :: rest, used', h => by
    unfold registerUsedDepositAddresses at h
    split at h
    · exact absurd h (by simp)
    · rw [registerUsedDepositAddresses_ok h]
      simp

/-- C8: a successful `/registerMintDepositAddress` run implies that the
response count matched the authority list, every envelope verified against
its positional authority's wallet address, all envelopes carried one mint
address, no submitted pubkey was previously used; and it records exactly the
N pubkeys as used and derives the multisig address from them in positional
order with the configured threshold. -/
theorem register_mint_deposit_address_spec (cv : ChainView) (d : Int)
    (nodes : List AuthorityNode) (k : Int) (isAddr : String → Bool)
    (cm : Int → List String → String × String) (st : RegState)
    (responses : List (Envelope GenAddrData)) (st' : RegState) (addr : String)
    (h : registerMintDepositAddress cv d nodes k isAddr cm st responses =
      .ok (st', addr)) :
    responses.length = nodes.length ∧
    (∀ p ∈ responses.zip nodes,
      validateTimedAndSignedMessage cv d p.1 p.2.walletAddress = .ok p.1.data) ∧
    (∀ r ∈ responses, ∀ r' ∈ responses,
      r.data.payload.mintAddress = r'.data.payload.mintAddress) ∧
    (∀ r ∈ responses, r.data.payload.depositAddress ∉ st.usedDepositAddresses) ∧
    st'.usedDepositAddresses = st.usedDepositAddresses ++
      responses.map (fun r => r.data.payload.depositAddress) ∧
    addr = (cm k (responses.map (fun r => r.data.payload.depositAddress))).1 := by
  unfold registerMintDepositAddress at h
  split at h
  · exact absurd h (by simp)
  · rename_i hlen
    have hlen' : responses.length = nodes.length := not_ne_iff.mp hlen
    split at h
    · exact absurd h (by simp)
    · rename_i datas hdatas
      obtain ⟨hdat, hall⟩ := mapE_validate_ok hdatas
      subst hdat
      have hfst : (responses.zip nodes).map Prod.fst = responses :=
        List.map_fst_zip responses nodes (le_of_eq hlen')
      have hmapr : (responses.zip nodes).map (fun p => p.1.data) =
          responses.map (fun r => r.data) := by
        rw [show (fun p : Envelope GenAddrData × AuthorityNode => p.1.data) =
          (fun r : Envelope GenAddrData => r.data) ∘ Prod.fst from rfl,
          ← List.map_map, hfst]
      have hmemr : ∀ r ∈ responses, ∃ p ∈ responses.zip nodes, p.1 = r := by
        intro r hr
        rw [← hfst] at hr
        rcases List.mem_map.mp hr with ⟨p, hp, hpr⟩
        exact ⟨p, hp, hpr⟩
      have hdepmap : ((responses.zip nodes).map (fun p => p.1.data)).map
          (fun x => x.payload.depositAddress) =
          responses.map (fun r => r.data.payload.depositAddress) := by
        rw [hmapr, List.map_map]
        rfl
      split at h
      · exact absurd h (by simp)
      · rename_i d0 rest hcons
        split at h
        · exact absurd h (by simp)
        · rename_i hmint
          have hmintall : ((responses.zip nodes).map (fun p => p.1.data)).all
              (fun x => x.payload.mintAddress == d0.payload.mintAddress) = true := by
            rcases hb : ((responses.zip nodes).map (fun p => p.1.data)).all
                (fun x => x.payload.mintAddress == d0.payload.mintAddress) with _ | _
            · rw [hb] at hmint
              simp at hmint
            · exact hb
          have hmint2 : ∀ x ∈ (responses.zip nodes).map (fun p => p.1.data),
              x.payload.mintAddress = d0.payload.mintAddress := by
            intro x hx
            have := List.all_eq_true.mp hmintall x hx
            simpa using this
          split at h
          · exact absurd h (by simp)
          · split at h
            · exact absurd h (by simp)
            · rename_i hused
              split at h
              · exact absurd h (by simp)
              · rename_i used' hreg
                injection h with h'
                rw [Prod.mk.injEq] at h'
                obtain ⟨hst, haddr⟩ := h'
                refine ⟨hlen', hall, ?_, ?_, ?_, ?_⟩
                · intro r hr r' hr'
                  have h1 : r.data.payload.mintAddress = d0.payload.mintAddress := by
                    apply hmint2
                    rw [hmapr]
                    exact List.mem_map.mpr ⟨r, hr, rfl⟩
                  have h2 : r'.data.payload.mintAddress = d0.payload.mintAddress := by
                    apply hmint2
                    rw [hmapr]
                    exact List.mem_map.mpr ⟨r', hr', rfl⟩
                  rw [h1, h2]
                · intro r hr hmem
                  apply hused
                  unfold hasUsedDepositAddresses
                  rw [List.any_eq_true]
                  refine ⟨r.data.payload.depositAddress, ?_, ?_⟩
                  · rw [hdepmap]
                    exact List.mem_map.mpr ⟨r, hr, rfl⟩
                  · simpa using hmem
                · rw [← hst]
                  show used' = _
                  rw [registerUsedDepositAddresses_ok hreg, hdepmap]
                · rw [← haddr]
                  show (cm k (((responses.zip nodes).map (fun p => p.1.data)).map
                    (fun x => x.payload.depositAddress))).1 = _
                  rw [hdepmap]

/-! ## Concrete data for the remaining witnesses -/

/-- Payout settings for the witnesses: two tax payout addresses and a
distinct change address. -/
def cfgEx : DingoSettings := ⟨["T1", "T2"], "CH"⟩

def dtpEx : List DepositTaxPayout := [⟨"DEP", 3000000000⟩]

def wpEx : List WithdrawalPayout := [⟨"0xB", 0, "DST", 500000000⟩]

def wtpEx : List WithdrawalPayout := [⟨"0xB", 0, "DST", 2000000000⟩]

def unspentEx : List Utxo := [⟨"tx0", 0, "DEP", 10000000000⟩]

/-- Witness for C5: one deposit-tax payout of `30·10^8` and one withdrawal
of `5·10^8` with `20·10^8` tax over a `100·10^8` UTXO; each tax address
gets `(50·10^8 − 40·10^8)/2`, the change vout is
`100·10^8 − 15·10^8 − 40·10^8`, and the batch succeeds. -/
theorem computeVouts_shares_change_dust_witness :
    getVout (voutsBeforeDust cfgEx dtpEx wpEx wtpEx unspentEx) "T1" =
      some (taxPayoutPerPayee cfgEx dtpEx wpEx wtpEx) ∧
    getVout (voutsBeforeDust cfgEx dtpEx wpEx wtpEx unspentEx) "CH" =
      some (changeAmount cfgEx dtpEx wpEx wtpEx unspentEx) ∧
    computeVouts cfgEx dtpEx wpEx wtpEx unspentEx =
      .ok ((voutsBeforeDust cfgEx dtpEx wpEx wtpEx unspentEx).filter aboveDust) := by
  have h := computeVouts_shares_change_dust cfgEx dtpEx wpEx wtpEx unspentEx
    (by decide) (by decide)
  exact ⟨h.2.1 "T1" (by decide) (by decide) (by decide),
    h.2.2.1 (by decide) (by decide) (by decide),
    h.2.2.2.2.1 (by decide)⟩

def dtpEx2 : List DepositTaxPayout := [⟨"DEP", 4100000000⟩]

def wpEx2 : List WithdrawalPayout := [⟨"0xB", 0, "DST", 600000000⟩]

def wtpEx2 : List WithdrawalPayout := [⟨"0xB", 0, "DST", 10000000⟩]

def unspentEx2 : List Utxo := [⟨"tx0", 0, "DEP", 5000000000⟩]

/-- Witness for C10: the tax shares of `55·10^6` fall below the dust
threshold and are dropped; the surviving vouts keep their values and the
dropped total is left to the on-chain fee. -/
theorem dust_left_to_fee_witness :
    ([("DST", 600000000), ("CH", 290000000)] : VoutMap) =
      (voutsBeforeDust cfgEx dtpEx2 wpEx2 wtpEx2 unspentEx2).filter aboveDust ∧
    getVout ([("DST", 600000000), ("CH", 290000000)] : VoutMap) "T1" = none ∧
    voutTotal ([("DST", 600000000), ("CH", 290000000)] : VoutMap) +
      voutTotal ((voutsBeforeDust cfgEx dtpEx2 wpEx2 wtpEx2 unspentEx2).filter
        (fun p => !(aboveDust p))) +
      payoutNetworkFee dtpEx2 wpEx2 = unspentTotal unspentEx2 := by
  have h := dust_left_to_fee cfgEx dtpEx2 wpEx2 wtpEx2 unspentEx2
    [("DST", 600000000), ("CH", 290000000)] (by rfl)
  exact ⟨h.1, h.2.2.1 "T1" 55000000 (by decide) (by decide), h.2.2.2.1⟩

/-- The chain view for the C8 witness: tip 100, one pinned hash at 95. -/
def cvEx : ChainView :=
  { blocks := 100, blockHash := fun h => if h = 95 then "hash95" else "other" }

def nodesEx : List AuthorityNode := [⟨"auth0", 1, "W0"⟩, ⟨"auth1", 2, "W1"⟩]

def respEx : List (Envelope GenAddrData) :=
  [⟨⟨⟨"0xMINT", "P0"⟩, 95, "hash95"⟩, "W0"⟩,
   ⟨⟨⟨"0xMINT", "P1"⟩, 95, "hash95"⟩, "W1"⟩]

/-- A deterministic `createmultisig` stub for the C8 witness. -/
def cmEx : Int → List String → String × String :=
  fun _ ps => (if ps = ["P0", "P1"] then "MS" else "XX", "REDEEM")

/-- Witness for C8: a two-authority registration starting from an empty
store succeeds and yields exactly the characterized state. -/
theorem register_mint_deposit_address_spec_witness :
    respEx.length = nodesEx.length ∧
    (∀ p ∈ respEx.zip nodesEx,
      validateTimedAndSignedMessage cvEx 5 p.1 p.2.walletAddress = .ok p.1.data) ∧
    (∀ r ∈ respEx, ∀ r' ∈ respEx,
      r.data.payload.mintAddress = r'.data.payload.mintAddress) ∧
    (∀ r ∈ respEx,
      r.data.payload.depositAddress ∉ (⟨[], []⟩ : RegState).usedDepositAddresses) ∧
    (⟨["P0", "P1"], [("0xMINT", "MS", "REDEEM")]⟩ : RegState).usedDepositAddresses =
      (⟨[], []⟩ : RegState).usedDepositAddresses ++
        respEx.map (fun r => r.data.payload.depositAddress) ∧
    "MS" = (cmEx 2 (respEx.map (fun r => r.data.payload.depositAddress))).1 :=
  register_mint_deposit_address_spec cvEx 5 nodesEx 2 isAddrEx cmEx ⟨[], []⟩ respEx
    ⟨["P0", "P1"], [("0xMINT", "MS", "REDEEM")]⟩ "MS" (by rfl)

end WDingo
